import Mathlib

/-!
# Verification of `fancy_hello.py`

A shallow embedding of the over-engineered Hello-World program
`src/fancy_hello.py` and proofs about its character-decoding pipeline.

Modelling conventions:
* A Python string is modelled as a list of Unicode code points
  (`PyStr := List Nat`); Python's `chr` accepts every `n` with
  `0 ≤ n ≤ 0x10FFFF` and raises `ValueError` otherwise, so `pychr`
  returns an `Option`.
* Python's built-in `hash` on tuples `(int, str, int)` is deterministic
  within one process but unspecified across processes, so every
  definition touching block hashes is parametrised by an arbitrary hash
  function `H : Nat → PyStr → Int → Int`.
* `functools.cached_property` on `CharBlock.hash` is modelled explicitly:
  each block carries a `cachedHash : Option Int` field, and every access
  to the hash goes through `hashValue`, which prefers the cached value.
* Raised exceptions are modelled with `Option`/`Except` (`none` /
  `.error` = the call raises).
-/

/-- A Python string: its list of Unicode code points. -/
abbrev PyStr : Type := List Nat

/-- Python's `chr`: valid for `0 ≤ n ≤ 0x10FFFF`, returning the one-character
string `[n]`; outside that range it raises `ValueError` (`none`). -/
def pychr (n : Int) : Option PyStr :=
  if 0 ≤ n ∧ n ≤ 1114111 then some [n.toNat] else none

/-- The recursion of `fibonacci` (lines 94–99) on the non-negative
arguments it visits once `n ≥ 2`:
`fibonacci(n-1) + fibonacci(n-2)` with base cases `0` and `1`. -/
def fibonacciNat : Nat → Int
  | 0 => 0
  | 1 => 1
  | n + 2 => fibonacciNat (n + 1) + fibonacciNat n

/-- `fibonacci` (lines 94–99 of `fancy_hello.py`):
`if n < 2: return n; return fibonacci(n-1) + fibonacci(n-2)`.
For `n ≥ 2` the recursion only meets non-negative arguments, carried out
by `fibonacciNat` (the unfolding equation is proved as `fibonacci_rec`).
The `lru_cache` only caches results; the value computed is this pure
function — see `fibMemo` below for the explicit cache model. -/
def fibonacci (n : Int) : Int :=
  if n < 2 then n else fibonacciNat n.toNat

/-- `ValidCache cache`: every entry of the memoization table stores the
value `fibonacci` would compute. -/
def ValidCache (cache : List (Int × Int)) : Prop :=
  ∀ p ∈ cache, p.2 = fibonacci p.1

/-- Dictionary lookup in the memoization table. -/
def lookupCache (n : Int) : List (Int × Int) → Option Int
  | [] => none
  | (k, v) :: rest => if n = k then some v else lookupCache n rest

/-- The `functools.lru_cache` wrapper around `fibonacci`, modelled with an
explicit table: a call first consults the table; on a miss it runs the
body (whose recursive calls are themselves memoized, threading the table
left to right) and records the result.  `maxsize=256` eviction never
fires for the indices this program uses (≤ 11) and in any case only
removes entries, so it is not modelled. -/
def fibMemo (n : Int) (cache : List (Int × Int)) :
    Int × List (Int × Int) :=
  match lookupCache n cache with
  | some v => (v, cache)
  | none =>
    if n < 2 then (n, (n, n) :: cache)
    else
      let r1 := fibMemo (n - 1) cache
      let r2 := fibMemo (n - 2) r1.2
      (r1.1 + r2.1, (n, r1.1 + r2.1) :: r2.2)
termination_by n.toNat
decreasing_by
  all_goals omega

/-- One step of `fibonacci_decode`: `chr(fibonacci(fib_index) + offset)`. -/
def decodeOne (p : Int × Int) : Option PyStr :=
  pychr (fibonacci p.1 + p.2)

/-- `fibonacci_decode` (line 101–104): a generator yielding
`chr(fibonacci(fib_index) + offset)` for each pair in order.  The result
records the fully-yielded list (`.ok`) or, when some `chr` raises, the
prefix of characters yielded before the raising pair (`.error`). -/
def fibonacci_decode : List (Int × Int) → Except (List PyStr) (List PyStr)
  | [] => .ok []
  | p :: rest =>
    match decodeOne p with
    | none => .error []
    | some c =>
      match fibonacci_decode rest with
      | .ok cs => .ok (c :: cs)
      | .error cs => .error (c :: cs)

/-! ## Phase 5: Lambda Calculus Encoding (lines 142–155) -/

/-- A Church numeral as used by the program: applied only at `Int → Int`. -/
abbrev ChurchNum : Type := (Int → Int) → Int → Int

/-- `ZERO = lambda f: lambda x: x`. -/
def ZERO : ChurchNum := fun _ x => x

/-- `SUCC = lambda n: lambda f: lambda x: f(n(f)(x))`. -/
def SUCC (n : ChurchNum) : ChurchNum := fun f x => f (n f x)

/-- `TO_INT = lambda n: n(lambda x: x + 1)(0)`. -/
def TO_INT (n : ChurchNum) : Int := n (fun x => x + 1) 0

/-- `church(n)`: starts at `ZERO` and applies `SUCC` once per loop iteration
of `for _ in range(n)` (an empty loop when `n ≤ 0`). -/
def church (n : Int) : ChurchNum :=
  Nat.rec ZERO (fun _ acc => SUCC acc) n.toNat

/-- `church_decode_char(n) = chr(TO_INT(church(n)))`. -/
def church_decode_char (n : Int) : Option PyStr :=
  pychr (TO_INT (church n))

/-! ## Phase 1: character factory and pipeline (lines 28–54) -/

/-- `ASCIICharacter` (lines 28–38): frozen dataclass holding one code point. -/
structure ASCIICharacter where
  codepoint : Int
deriving DecidableEq

/-- `ASCIICharacter.glyph = chr(self.codepoint)`; also `__str__`. -/
def ASCIICharacter.glyph (a : ASCIICharacter) : Option PyStr :=
  pychr a.codepoint

/-- `CharacterPipeline` (lines 40–54): a wrapper around one value. -/
structure CharacterPipeline (T : Type) where
  value : T

/-- `CharacterPipeline.map(f)` wraps `f` applied to the held value (the
annotation says `Callable[[T], T]`, but Python does not enforce it and the
program applies character-producing transforms, hence `T → U`). -/
def CharacterPipeline.mapP {T U : Type} (p : CharacterPipeline T) (f : T → U) :
    CharacterPipeline U := ⟨f p.value⟩

/-- `CharacterPipeline.unwrap` returns the held value. -/
def CharacterPipeline.unwrap {T : Type} (p : CharacterPipeline T) : T := p.value

/-! ## Phase 2: Blockchain-Inspired Character Ledger (lines 60–88)

`CharBlock.hash` is a `functools.cached_property`: the first access
computes `hash((index, data, prev_hash))` and stores it on the instance;
later accesses return the stored value even if `data` was mutated in the
meantime.  The `cachedHash` field models that stored value. -/

/-- `CharBlock` (lines 60–69): a mutable dataclass with a cached hash. -/
structure CharBlock where
  index : Nat
  data : PyStr
  prev_hash : Int
  cachedHash : Option Int
deriving DecidableEq

/-- The value an access to `block.hash` returns, given the process's hash
function `H` for tuples `(index, data, prev_hash)`: the cached value if
present, else the freshly computed one. -/
def CharBlock.hashValue (H : Nat → PyStr → Int → Int) (b : CharBlock) : Int :=
  b.cachedHash.getD (H b.index b.data b.prev_hash)

/-- The state of `block` after an access to `block.hash`: the cache is
filled (a no-op if it already was). -/
def CharBlock.forceHash (H : Nat → PyStr → Int → Int) (b : CharBlock) :
    CharBlock :=
  { b with cachedHash := some (b.hashValue H) }

/-- A `CharChain` (lines 71–88) is its list `self._chain` in append order. -/
abbrev CharChain : Type := List CharBlock

/-- Helper for `mine`: walk to the end of the chain, force the last block's
hash to obtain `prev`, and append `CharBlock(len(chain), char, prev)` with
an unfilled cache.  On an empty chain `prev = 0`. -/
def mineAppend (H : Nat → PyStr → Int → Int) (n : Nat) (char : PyStr) :
    CharChain → CharChain
  | [] => [⟨n, char, 0, none⟩]
  | [b] => [b.forceHash H, ⟨n, char, b.hashValue H, none⟩]
  | b :: b' :: rest => b :: mineAppend H n char (b' :: rest)

/-- `CharChain.mine` (lines 77–80): `prev = chain[-1].hash if chain else 0;
chain.append(CharBlock(len(chain), char, prev))`. -/
def CharChain.mine (H : Nat → PyStr → Int → Int) (c : CharChain)
    (char : PyStr) : CharChain :=
  mineAppend H c.length char c

/-- Loop of `verify_and_extract` from the second block on: `prev` is the
previous block, `acc` the characters collected so far.  Each later block's
`prev_hash` is compared with an access to the previous block's `hash`
(hence `hashValue`); on mismatch the `assert` raises (`none`). -/
def verifyGo (H : Nat → PyStr → Int → Int) (prev : CharBlock) (acc : PyStr) :
    List CharBlock → Option PyStr
  | [] => some acc
  | b :: rest =>
    if b.prev_hash = prev.hashValue H then
      verifyGo H b (acc ++ b.data) rest
    else
      none

/-- `CharChain.verify_and_extract` (lines 82–88): checks every block after
the first against its predecessor's hash and joins the block data;
`none` models the `assert ... "CHAIN CORRUPTED!"` raising. -/
def CharChain.verify_and_extract (H : Nat → PyStr → Int → Int)
    (c : CharChain) : Option PyStr :=
  match c with
  | [] => some []
  | b :: rest => verifyGo H b b.data rest

/-- Tampering harness: overwrite the `data` field of the block at position
`i` (a plain attribute write — it does not touch `cachedHash`). -/
def CharChain.setData : CharChain → Nat → PyStr → CharChain
  | [], _, _ => []
  | b :: rest, 0, char => { b with data := char } :: rest
  | b :: rest, i + 1, char => b :: CharChain.setData rest i char

/-- Folding `mine` over a list of characters, starting from chain `c`:
`for ch in chars: c.mine(ch)`. -/
def foldMine (H : Nat → PyStr → Int → Int) (c : CharChain)
    (chars : List PyStr) : CharChain :=
  chars.foldl (fun ch s => ch.mine H s) c

/-! ## Phase 4: Observer Pattern (lines 110–135) -/

/-- `CharacterEvent` (lines 110–113). -/
inductive CharacterEvent : Type where
  | SPAWNED
  | VALIDATED
  | RENDERED
deriving DecidableEq

/-- A `CharacterObserver` (lines 115–117): receives `(event, char)` and
returns nothing. -/
abbrev CharacterObserver : Type := CharacterEvent → PyStr → Unit

/-- `SilentWitness` (lines 119–122): observes everything, does nothing. -/
def SilentWitness : CharacterObserver := fun _ _ => ()

/-- `CharacterEmitter` (lines 124–135): a list of subscribed observers. -/
structure CharacterEmitter where
  observers : List CharacterObserver

/-- `subscribe` appends an observer and returns the emitter. -/
def CharacterEmitter.subscribe (e : CharacterEmitter)
    (o : CharacterObserver) : CharacterEmitter :=
  ⟨e.observers ++ [o]⟩

/-- `emit` notifies every observer (each returns `Unit`, so notification
has no effect on the data) and returns the character unchanged. -/
def CharacterEmitter.emit (e : CharacterEmitter) (ev : CharacterEvent)
    (char : PyStr) : PyStr :=
  let _ := e.observers.map (fun o => o ev char)
  char

/-! ## Phase 6: The Grand Orchestrator (lines 169–263)

`dramatic_pause`, the banner and all `print` calls are presentation only
(they write to stdout and sleep); they carry no data the orchestrator
reads, so they have no counterpart in the embedding. -/

/-- `HelloWorldOrchestrator` (lines 169–263): its instance state, set in
`__init__` (lines 187–189) — an emitter with one `SilentWitness`
subscribed and a `CharChain`.  The class constants live in the
`HelloWorldOrchestrator` namespace below. -/
structure HelloWorldOrchestrator where
  emitter : CharacterEmitter
  chain : CharChain

/-- `__init__` (lines 187–189). -/
def HelloWorldOrchestrator.init : HelloWorldOrchestrator :=
  { emitter := CharacterEmitter.subscribe ⟨[]⟩ SilentWitness
    chain := [] }

/-- `HELLO_ENCODED` (line 176): Fibonacci-encoded "Hello". -/
def HelloWorldOrchestrator.HELLO_ENCODED : List (Int × Int) :=
  [(10, 17), (11, 12), (11, 19), (11, 19), (11, 22)]

/-- `SPACE_CODEPOINT` (line 179). -/
def HelloWorldOrchestrator.SPACE_CODEPOINT : Int := 32

/-- `WORLD_CHARS` (line 182): code points of "World". -/
def HelloWorldOrchestrator.WORLD_CHARS : List Nat := [87, 111, 114, 108, 100]

/-- `EXCLAIM` (line 185). -/
def HelloWorldOrchestrator.EXCLAIM : ASCIICharacter := ⟨33⟩

/-- `_render_hello` (lines 191–196): lists the decoder's output (a raised
`ValueError` propagates, hence `none`), emits each character through the
emitter and joins them. -/
def HelloWorldOrchestrator._render_hello (o : HelloWorldOrchestrator) :
    Option PyStr :=
  match fibonacci_decode HelloWorldOrchestrator.HELLO_ENCODED with
  | .error _ => none
  | .ok chars =>
    some (chars.map (fun c => o.emitter.emit .RENDERED c)).flatten

/-- `_render_space` (lines 198–202): pipes `SPACE_CODEPOINT` through the
`CharacterPipeline` with `church_decode_char`. -/
def HelloWorldOrchestrator._render_space (_o : HelloWorldOrchestrator) :
    Option PyStr :=
  ((CharacterPipeline.mk HelloWorldOrchestrator.SPACE_CODEPOINT).mapP
    church_decode_char).unwrap

/-- `_render_world` (lines 204–208): mines `chr(cp)` for each code point
of `WORLD_CHARS` into `self.chain` (every `cp` is in range, so `chr(cp)`
is the one-character string `[cp]`), then verifies and extracts.  Returns
the extraction result together with the updated orchestrator — the mined
chain stays in `self.chain`. -/
def HelloWorldOrchestrator._render_world (H : Nat → PyStr → Int → Int)
    (o : HelloWorldOrchestrator) :
    Option PyStr × HelloWorldOrchestrator :=
  let chain :=
    foldMine H o.chain
      (HelloWorldOrchestrator.WORLD_CHARS.map (fun cp => [cp]))
  (chain.verify_and_extract H, { o with chain := chain })

/-- `_render_exclaim` (lines 210–214): pipes `EXCLAIM` through the
pipeline with `str`, i.e. `chr(33)`. -/
def HelloWorldOrchestrator._render_exclaim (_o : HelloWorldOrchestrator) :
    Option PyStr :=
  ((CharacterPipeline.mk HelloWorldOrchestrator.EXCLAIM).mapP
    ASCIICharacter.glyph).unwrap

/-- `perform` (lines 216–263): runs the four renderers in their fixed
order and joins the four segments.  A segment that raises aborts the run
(`none`); the banner, progress printing and vanity statistics are
presentation only.  `_render_world` happens after `_render_hello` and
`_render_space`, so the chain is only mined once those succeeded. -/
def HelloWorldOrchestrator.perform (H : Nat → PyStr → Int → Int)
    (o : HelloWorldOrchestrator) :
    Option PyStr × HelloWorldOrchestrator :=
  match o._render_hello, o._render_space with
  | some hello, some space =>
    let r := o._render_world H
    match r.1, r.2._render_exclaim with
    | some world, some ex => (some (hello ++ space ++ world ++ ex), r.2)
    | _, _ => (none, r.2)
  | _, _ => (none, o)

/-- The code points of `"Hello World!"`. -/
def helloWorldCodes : PyStr :=
  [72, 101, 108, 108, 111, 32, 87, 111, 114, 108, 100, 33]

/-- The code points of `"Hello WorldWorld!"`. -/
def helloWorldWorldCodes : PyStr :=
  [72, 101, 108, 108, 111, 32, 87, 111, 114, 108, 100,
   87, 111, 114, 108, 100, 33]

/-- A concrete stand-in for the process's tuple-hash function, used where
a closed instance is needed (any fixed function is a possible `hash`). -/
def constHash : Nat → PyStr → Int → Int := fun _ _ _ => 0

/-- The five one-character strings `chr(cp)` mined for "World". -/
def worldStrs : List PyStr :=
  HelloWorldOrchestrator.WORLD_CHARS.map (fun cp => [cp])

/-- The string a chain's blocks spell in order: `"".join(block.data)`. -/
def dataJoin (c : CharChain) : PyStr :=
  (c.map CharBlock.data).flatten

/-- The links from `prev` onwards are consistent: each block's stored
`prev_hash` equals the value an access to the previous block's `hash`
returns. -/
def ChainedFrom (H : Nat → PyStr → Int → Int) :
    CharBlock → List CharBlock → Prop
  | _, [] => True
  | prev, b :: rest => b.prev_hash = prev.hashValue H ∧ ChainedFrom H b rest

/-- A chain whose every block after the first passes the link check. -/
def Chained (H : Nat → PyStr → Int → Int) : CharChain → Prop
  | [] => True
  | b :: rest => ChainedFrom H b rest

/-- `n` is a code point `chr` accepts: `0 ≤ n ≤ 0x10FFFF`. -/
def inCharRange (n : Int) : Prop := 0 ≤ n ∧ n ≤ 1114111

instance (n : Int) : Decidable (inCharRange n) :=
  inferInstanceAs (Decidable (0 ≤ n ∧ n ≤ 1114111))

/-- The character a valid decoder pair yields: the toNat image of its sum. -/
def pairChar (p : Int × Int) : PyStr := [(fibonacci p.1 + p.2).toNat]

/-- Equality of decoder results is decidable (needed to evaluate the
decoder on concrete inputs). -/
instance {A B : Type} [DecidableEq A] [DecidableEq B] :
    DecidableEq (Except A B) := fun a b =>
  match a, b with
  | .error x, .error y =>
    if h : x = y then isTrue (congrArg Except.error h)
    else isFalse (fun he => h (by injection he))
  | .error _, .ok _ => isFalse (fun he => Except.noConfusion he)
  | .ok _, .error _ => isFalse (fun he => Except.noConfusion he)
  | .ok x, .ok y =>
    if h : x = y then isTrue (congrArg Except.ok h)
    else isFalse (fun he => h (by injection he))

/-! ## Lemmas about `fibonacci` -/

/-- On a natural argument, `fibonacci` agrees with `fibonacciNat`. -/
lemma fibonacci_natCast : ∀ k : Nat, fibonacci (k : Int) = fibonacciNat k := by
  intro k
  match k with
  | 0 => simp [fibonacci, fibonacciNat]
  | 1 => simp [fibonacci, fibonacciNat]
  | k + 2 =>
    have h : ¬((k + 2 : Nat) : Int) < 2 := by push_cast; omega
    unfold fibonacci
    rw [if_neg h]
    congr 1

/-- The unfolding equation of the source's recursion: `fibonacci n` is
`n` when `n < 2` and `fibonacci (n-1) + fibonacci (n-2)` otherwise. -/
lemma fibonacci_rec (n : Int) :
    fibonacci n = if n < 2 then n else fibonacci (n - 1) + fibonacci (n - 2) := by
  by_cases h : n < 2
  · simp [fibonacci, h]
  · have h2 : 2 ≤ n := by omega
    obtain ⟨k, hk⟩ : ∃ k : Nat, n = ((k + 2 : Nat) : Int) := by
      refine ⟨(n - 2).toNat, ?_⟩
      omega
    subst hk
    have e1 : ((k + 2 : Nat) : Int) - 1 = ((k + 1 : Nat) : Int) := by push_cast; ring
    have e2 : ((k + 2 : Nat) : Int) - 2 = ((k : Nat) : Int) := by push_cast; ring
    rw [if_neg h, e1, e2, fibonacci_natCast, fibonacci_natCast, fibonacci_natCast]
    rfl

/-! ## Lemmas about the character ledger -/

lemma hashValue_forceHash (H : Nat → PyStr → Int → Int) (b : CharBlock) :
    (b.forceHash H).hashValue H = b.hashValue H := by
  simp [CharBlock.forceHash, CharBlock.hashValue]

lemma prev_hash_forceHash (H : Nat → PyStr → Int → Int) (b : CharBlock) :
    (b.forceHash H).prev_hash = b.prev_hash := rfl

lemma data_forceHash (H : Nat → PyStr → Int → Int) (b : CharBlock) :
    (b.forceHash H).data = b.data := rfl

lemma verifyGo_of_chainedFrom (H : Nat → PyStr → Int → Int) :
    ∀ (l : List CharBlock) (prev : CharBlock) (acc : PyStr),
      ChainedFrom H prev l → verifyGo H prev acc l = some (acc ++ dataJoin l) := by
  intro l
  induction l with
  | nil => intro prev acc _; simp [verifyGo, dataJoin]
  | cons b rest ih =>
    intro prev acc h
    obtain ⟨h1, h2⟩ := h
    rw [verifyGo, if_pos h1, ih b (acc ++ b.data) h2]
    simp [dataJoin]

lemma verify_of_chained (H : Nat → PyStr → Int → Int) (c : CharChain)
    (h : Chained H c) : c.verify_and_extract H = some (dataJoin c) := by
  cases c with
  | nil => simp [CharChain.verify_and_extract, dataJoin]
  | cons b rest =>
    rw [CharChain.verify_and_extract, verifyGo_of_chainedFrom H rest b b.data h]
    simp [dataJoin]

lemma chainedFrom_mineAppend (H : Nat → PyStr → Int → Int) (n : Nat)
    (char : PyStr) :
    ∀ (l : List CharBlock), l ≠ [] → ∀ prev, ChainedFrom H prev l →
      ChainedFrom H prev (mineAppend H n char l) := by
  intro l
  induction l with
  | nil => intro h; exact absurd rfl h
  | cons b rest ih =>
    intro _ prev hc
    cases rest with
    | nil =>
      obtain ⟨h1, -⟩ := hc
      refine ⟨?_, ?_, trivial⟩
      · rw [prev_hash_forceHash]; exact h1
      · rw [hashValue_forceHash]
    | cons b2 rest2 =>
      obtain ⟨h1, h2⟩ := hc
      exact ⟨h1, ih (by simp) b h2⟩

lemma dataJoin_mineAppend (H : Nat → PyStr → Int → Int) (n : Nat)
    (char : PyStr) :
    ∀ (l : List CharBlock), l ≠ [] →
      dataJoin (mineAppend H n char l) = dataJoin l ++ char := by
  intro l
  induction l with
  | nil => intro h; exact absurd rfl h
  | cons b rest ih =>
    intro _
    cases rest with
    | nil => simp [mineAppend, dataJoin, data_forceHash]
    | cons b2 rest2 =>
      have := ih (by simp)
      simp only [mineAppend, dataJoin, List.map_cons, List.flatten_cons] at this ⊢
      rw [this]
      simp [List.append_assoc]

lemma chained_mine (H : Nat → PyStr → Int → Int) (char : PyStr) :
    ∀ (c : CharChain), Chained H c → Chained H (c.mine H char) := by
  intro c h
  cases c with
  | nil => exact trivial
  | cons b rest =>
    cases rest with
    | nil =>
      show ChainedFrom H (b.forceHash H) [⟨1, char, b.hashValue H, none⟩]
      exact ⟨(hashValue_forceHash H b).symm, trivial⟩
    | cons b2 rest2 =>
      show ChainedFrom H b (mineAppend H _ char (b2 :: rest2))
      exact chainedFrom_mineAppend H _ char (b2 :: rest2) (by simp) b h

lemma dataJoin_mine (H : Nat → PyStr → Int → Int) (char : PyStr) :
    ∀ (c : CharChain), dataJoin (c.mine H char) = dataJoin c ++ char := by
  intro c
  cases c with
  | nil => simp [CharChain.mine, mineAppend, dataJoin]
  | cons b rest => exact dataJoin_mineAppend H _ char (b :: rest) (by simp)

lemma chained_foldMine (H : Nat → PyStr → Int → Int) :
    ∀ (chars : List PyStr) (c : CharChain),
      Chained H c → Chained H (foldMine H c chars) := by
  intro chars
  induction chars with
  | nil => intro c h; exact h
  | cons s rest ih =>
    intro c h
    show Chained H (foldMine H (c.mine H s) rest)
    exact ih _ (chained_mine H s c h)

lemma dataJoin_foldMine (H : Nat → PyStr → Int → Int) :
    ∀ (chars : List PyStr) (c : CharChain),
      dataJoin (foldMine H c chars) = dataJoin c ++ chars.flatten := by
  intro chars
  induction chars with
  | nil => intro c; simp [foldMine]
  | cons s rest ih =>
    intro c
    show dataJoin (foldMine H (c.mine H s) rest) = _
    rw [ih, dataJoin_mine]
    simp [List.append_assoc]

/-! ## Lemmas about the orchestrator's renderers -/

lemma render_hello_eq (o : HelloWorldOrchestrator) :
    o._render_hello = some [72, 101, 108, 108, 111] := rfl

lemma render_space_eq (o : HelloWorldOrchestrator) :
    o._render_space = some [32] := rfl

lemma render_exclaim_eq (o : HelloWorldOrchestrator) :
    o._render_exclaim = some [33] := rfl

lemma render_world_eq (H : Nat → PyStr → Int → Int)
    (o : HelloWorldOrchestrator) (h : Chained H o.chain) :
    o._render_world H =
      (some (dataJoin o.chain ++ [87, 111, 114, 108, 100]),
       { o with chain := foldMine H o.chain worldStrs }) := by
  rw [HelloWorldOrchestrator._render_world]
  have hch := chained_foldMine H worldStrs o.chain h
  rw [show HelloWorldOrchestrator.WORLD_CHARS.map (fun cp => [cp]) = worldStrs from rfl]
  rw [verify_of_chained H _ hch, dataJoin_foldMine]
  rfl

lemma perform_eq (H : Nat → PyStr → Int → Int)
    (o : HelloWorldOrchestrator) (h : Chained H o.chain) :
    o.perform H =
      (some ([72, 101, 108, 108, 111, 32] ++ dataJoin o.chain ++
             [87, 111, 114, 108, 100, 33]),
       { o with chain := foldMine H o.chain worldStrs }) := by
  rw [HelloWorldOrchestrator.perform]
  rw [render_hello_eq, render_space_eq, render_world_eq H o h]
  simp [render_exclaim_eq]

/-! ## Claim theorems -/

/-- C1: `perform()` on the orchestrator as constructed by the entry point
returns exactly the 12-character string "Hello World!" — the fixed-order
concatenation of the Fibonacci-decoded "Hello", the Church-numeral space,
the ledger-extracted "World" and the ASCII "!" — whatever the process's
tuple-hash function is (determinism: `perform` is a function of its
inputs alone, with no other source of variation). -/
theorem perform_returns_hello_world :
    ∀ H : Nat → PyStr → Int → Int,
      (HelloWorldOrchestrator.init.perform H).1 = some helloWorldCodes ∧
      helloWorldCodes.length = 12 := by
  intro H
  refine ⟨?_, by decide⟩
  rw [perform_eq H HelloWorldOrchestrator.init (by trivial)]
  rfl

/-- C2 (counterexample): `perform()` is not idempotent on one orchestrator
instance.  With `constHash` standing in for the process's hash function,
the second call on the same instance returns the 17-character
"Hello WorldWorld!", not the first call's "Hello World!": the chain
mined by the first call persists in `self.chain`. -/
theorem perform_not_idempotent_cex :
    ((HelloWorldOrchestrator.init.perform constHash).2.perform constHash).1 ≠
      (HelloWorldOrchestrator.init.perform constHash).1 ∧
    ((HelloWorldOrchestrator.init.perform constHash).2.perform constHash).1 =
      some helloWorldWorldCodes ∧
    (HelloWorldOrchestrator.init.perform constHash).1 = some helloWorldCodes := by
  decide

/-- C2 (amended): the orchestrator does carry persisted state across
invocations — `self.chain` keeps the mined blocks — so `perform()` is not
idempotent: for every process hash function, the first call on a fresh
instance returns "Hello World!" and a second call on the same instance
returns "Hello WorldWorld!". -/
theorem perform_second_call_appends_world :
    ∀ H : Nat → PyStr → Int → Int,
      (HelloWorldOrchestrator.init.perform H).1 = some helloWorldCodes ∧
      ((HelloWorldOrchestrator.init.perform H).2.perform H).1 =
        some helloWorldWorldCodes := by
  intro H
  have h1 := perform_eq H HelloWorldOrchestrator.init (by trivial)
  have hch : Chained H (foldMine H HelloWorldOrchestrator.init.chain worldStrs) :=
    chained_foldMine H worldStrs _ (by trivial)
  constructor
  · rw [h1]; rfl
  · rw [h1]
    rw [perform_eq H _ hch]
    rfl

/-- C3 (code bug): the integrity tripwire cannot fire on data tampering.
`CharBlock.hash` is a `cached_property`, and `mine` forces every block's
hash except the last one's; `verify_and_extract` reads exactly those
cached values.  So after mining "World" and overwriting the third block's
character with "X" (code point 88), extraction raises no `IntegrityError`
and happily returns "WoXld" — for every possible process hash function.
The claim (and the spec's §8.4) says this must fail. -/
theorem tampered_chain_extracts_without_error :
    ∀ H : Nat → PyStr → Int → Int,
      ((foldMine H [] worldStrs).setData 2 [88]).verify_and_extract H =
        some [87, 111, 88, 108, 100] := by
  intro H
  simp [foldMine, worldStrs, HelloWorldOrchestrator.WORLD_CHARS, CharChain.mine,
        mineAppend, CharBlock.forceHash, CharBlock.hashValue, CharChain.setData,
        CharChain.verify_and_extract, verifyGo, List.foldl_cons, List.foldl_nil]

/-- C5: a ledger built solely by `mine` calls on a fresh chain always
verifies — every block after the first passes the link check — and
`verify_and_extract` returns the concatenation of the appended characters
in position order; in particular mining the code points of "World"
and extracting returns "World". -/
theorem mined_chain_extracts_concatenation :
    ∀ H : Nat → PyStr → Int → Int,
      (∀ chars : List PyStr,
        (foldMine H [] chars).verify_and_extract H = some chars.flatten) ∧
      (foldMine H [] worldStrs).verify_and_extract H =
        some [87, 111, 114, 108, 100] := by
  intro H
  have main : ∀ chars : List PyStr,
      (foldMine H [] chars).verify_and_extract H = some chars.flatten := by
    intro chars
    rw [verify_of_chained H _ (chained_foldMine H chars [] (by trivial)),
        dataJoin_foldMine]
    rfl
  exact ⟨main, (main worldStrs).trans (by decide)⟩

/-! ## Lemmas about the Fibonacci decoder -/

lemma decodeOne_of_inCharRange (p : Int × Int)
    (h : inCharRange (fibonacci p.1 + p.2)) :
    decodeOne p = some (pairChar p) := by
  have h2 : 0 ≤ fibonacci p.1 + p.2 ∧ fibonacci p.1 + p.2 ≤ 1114111 := h
  rw [decodeOne, pychr, if_pos h2, pairChar]

lemma decodeOne_of_not_inCharRange (p : Int × Int)
    (h : ¬ inCharRange (fibonacci p.1 + p.2)) :
    decodeOne p = none := by
  have h2 : ¬(0 ≤ fibonacci p.1 + p.2 ∧ fibonacci p.1 + p.2 ≤ 1114111) := h
  rw [decodeOne, pychr, if_neg h2]

lemma fibonacci_decode_all_ok :
    ∀ pairs : List (Int × Int),
      (∀ p ∈ pairs, inCharRange (fibonacci p.1 + p.2)) →
      fibonacci_decode pairs = .ok (pairs.map pairChar) := by
  intro pairs
  induction pairs with
  | nil => intro _; rfl
  | cons q rest ih =>
    intro h
    have hq := decodeOne_of_inCharRange q (h q (by simp))
    have hr := ih (fun p hp => h p (by simp [hp]))
    simp [fibonacci_decode, hq, hr]

/-- C4 (counterexample): as stated, the claim fails — a pair need not
yield a character at all.  For the pair `(0, -1)` (a non-negative index)
the computed code point is `fibonacci 0 + (-1) = -1`, so `chr` raises
`ValueError` and the decoder yields zero characters instead of one. -/
theorem fibonacci_decode_no_guard_cex :
    fibonacci_decode [((0 : Int), (-1 : Int))] = Except.error [] := by
  decide

/-- C4 (amended): for every ordered list of pairs whose computed sums
`fibonacci(fib_index) + offset` all lie inside the valid code point range
`[0, 0x10FFFF]`, `fibonacci_decode` yields one character per pair, in
input order, whose code point is that sum; in particular decoding
`HELLO_ENCODED` yields the code points of "Hello".  (Pairs with an
out-of-range sum instead raise — see the no-guard counterexample.) -/
theorem fibonacci_decode_yields_codepoints :
    (∀ pairs : List (Int × Int),
      (∀ p ∈ pairs, inCharRange (fibonacci p.1 + p.2)) →
      fibonacci_decode pairs = .ok (pairs.map pairChar)) ∧
    fibonacci_decode HelloWorldOrchestrator.HELLO_ENCODED =
      .ok [[72], [101], [108], [108], [111]] :=
  ⟨fibonacci_decode_all_ok, by decide⟩

/-- Witness for the amended C4, at the concrete pair `(10, 17)`:
`fibonacci 10 + 17 = 72`, the code point of "H". -/
theorem fibonacci_decode_yields_codepoints_witness :
    fibonacci_decode [((10 : Int), (17 : Int))] = Except.ok [[72]] :=
  (fibonacci_decode_yields_codepoints.1 [((10 : Int), (17 : Int))]
    (by decide)).trans (by decide)

/-- C8: a pair whose computed sum lies outside the valid code point range
makes the decoder raise: in any input list, once the first such pair is
reached the generator fails, having yielded only the characters of the
in-range pairs before it — the failing pair itself produces none. -/
theorem decode_out_of_range_fails :
    ∀ (i o : Int) (post pre : List (Int × Int)),
      (∀ p ∈ pre, inCharRange (fibonacci p.1 + p.2)) →
      ¬ inCharRange (fibonacci i + o) →
      fibonacci_decode (pre ++ (i, o) :: post) =
        .error (pre.map pairChar) := by
  intro i o post pre
  induction pre with
  | nil =>
    intro _ h
    have hd := decodeOne_of_not_inCharRange (i, o) h
    simp [fibonacci_decode, hd]
  | cons q rest ih =>
    intro hpre h
    have hq := decodeOne_of_inCharRange q (hpre q (by simp))
    have hr := ih (fun p hp => hpre p (by simp [hp])) h
    simp [fibonacci_decode, hq, hr]

/-- Witness for C8: after the in-range pair `(10, 17)` (yielding "H"),
the pair `(3, -100)` computes `fibonacci 3 - 100 = -98`, which is out of
range: decoding fails having yielded only "H". -/
theorem decode_out_of_range_fails_witness :
    fibonacci_decode [((10 : Int), (17 : Int)), ((3 : Int), (-100 : Int))] =
      Except.error [[72]] :=
  (decode_out_of_range_fails 3 (-100) [] [((10 : Int), (17 : Int))]
    (by decide) (by decide)).trans (by decide)

/-! ## Lemmas about memoization -/

lemma lookupCache_mem :
    ∀ (c : List (Int × Int)) (n v : Int),
      lookupCache n c = some v → (n, v) ∈ c := by
  intro c
  induction c with
  | nil => intro n v h; exact absurd h (by simp [lookupCache])
  | cons q rest ih =>
    intro n v h
    obtain ⟨k, w⟩ := q
    by_cases hk : n = k
    · rw [lookupCache, if_pos hk] at h
      injection h with h
      subst hk
      subst h
      exact List.mem_cons_self _ _
    · rw [lookupCache, if_neg hk] at h
      exact List.mem_cons_of_mem _ (ih n v h)

lemma fibMemo_correct :
    ∀ (n : Int) (cache : List (Int × Int)), ValidCache cache →
      (fibMemo n cache).1 = fibonacci n ∧ ValidCache (fibMemo n cache).2 := by
  have main : ∀ (k : Nat) (n : Int), n.toNat ≤ k →
      ∀ cache, ValidCache cache →
      (fibMemo n cache).1 = fibonacci n ∧ ValidCache (fibMemo n cache).2 := by
    intro k
    induction k with
    | zero =>
      intro n hn cache hc
      rw [fibMemo.eq_def]
      split
      · next v hv =>
        exact ⟨hc _ (lookupCache_mem cache n v hv), hc⟩
      · next hv =>
        have h2 : n < 2 := by omega
        rw [if_pos h2]
        refine ⟨by rw [fibonacci, if_pos h2], ?_⟩
        intro p hp
        rcases List.mem_cons.mp hp with h | h
        · subst h; rw [fibonacci, if_pos h2]
        · exact hc p h
    | succ k ih =>
      intro n hn cache hc
      rw [fibMemo.eq_def]
      split
      · next v hv =>
        exact ⟨hc _ (lookupCache_mem cache n v hv), hc⟩
      · next hv =>
        by_cases h2 : n < 2
        · rw [if_pos h2]
          refine ⟨by rw [fibonacci, if_pos h2], ?_⟩
          intro p hp
          rcases List.mem_cons.mp hp with h | h
          · subst h; rw [fibonacci, if_pos h2]
          · exact hc p h
        · rw [if_neg h2]
          have hr1 := ih (n - 1) (by omega) cache hc
          have hr2 := ih (n - 2) (by omega) _ hr1.2
          refine ⟨?_, ?_⟩
          · show (fibMemo (n - 1) cache).1 +
              (fibMemo (n - 2) (fibMemo (n - 1) cache).2).1 = fibonacci n
            rw [hr1.1, hr2.1, fibonacci_rec n, if_neg h2]
          · intro p hp
            rcases List.mem_cons.mp hp with h | h
            · subst h
              show (fibMemo (n - 1) cache).1 +
                (fibMemo (n - 2) (fibMemo (n - 1) cache).2).1 = fibonacci n
              rw [hr1.1, hr2.1, fibonacci_rec n, if_neg h2]
            · exact hr2.2 p h
  intro n cache hc
  exact main n.toNat n le_rfl cache hc

/-- C6: `fibonacci` satisfies the reference definition — `F(0) = 0`,
`F(1) = 1`, and `F(n) = F(n-1) + F(n-2)` for `n ≥ 2` — and the memoized
wrapper is correct: starting from any valid cache it returns exactly
`fibonacci n`, a repeated call with the same `n` (against the cache the
first call produced) returns the same value, and the cache stays valid —
caching accelerates but never changes results. -/
theorem fib_spec :
    ∀ n : Int, 0 ≤ n →
      (fibonacci 0 = 0 ∧ fibonacci 1 = 1 ∧
        (2 ≤ n → fibonacci n = fibonacci (n - 1) + fibonacci (n - 2))) ∧
      (∀ cache, ValidCache cache →
        (fibMemo n cache).1 = fibonacci n ∧
        (fibMemo n (fibMemo n cache).2).1 = (fibMemo n cache).1 ∧
        ValidCache (fibMemo n cache).2) := by
  intro n _
  refine ⟨⟨by decide, by decide, ?_⟩, ?_⟩
  · intro h2; rw [fibonacci_rec n, if_neg (by omega)]
  · intro cache hc
    have h1 := fibMemo_correct n cache hc
    have h2 := fibMemo_correct n _ h1.2
    exact ⟨h1.1, h2.1.trans h1.1.symm, h1.2⟩

/-- Witness for C6 at `n = 10` with the empty cache: the memoized call
returns `fibonacci 10 = 55`. -/
theorem fib_spec_witness : (fibMemo 10 []).1 = 55 := by
  have h := (fib_spec 10 (by norm_num)).2 [] (by intro p hp; simp at hp)
  exact h.1.trans (by decide)

/-! ## Lemmas about the Church encoding -/

lemma to_int_succ (m : ChurchNum) : TO_INT (SUCC m) = TO_INT m + 1 := rfl

lemma to_int_churchNat :
    ∀ k : Nat, TO_INT (Nat.rec ZERO (fun _ acc => SUCC acc) k) = (k : Int) := by
  intro k
  induction k with
  | zero => rfl
  | succ k ih =>
    show TO_INT (SUCC (Nat.rec ZERO (fun _ acc => SUCC acc) k)) = _
    rw [to_int_succ, ih]
    push_cast
    ring

lemma to_int_church (k : Nat) : TO_INT (church (k : Int)) = (k : Int) := by
  have h : ((k : Int)).toNat = k := by omega
  unfold church
  rw [h]
  exact to_int_churchNat k

/-- C7: the Church-numeral round trip is the identity on non-negative
integers, so `church_decode_char` is extensionally equal to direct
code-point-to-character conversion (`chr`); on every valid code point it
returns the one character with that code point, and the orchestrator's
`_render_space` renders code point 32 as the single space character. -/
theorem church_encode_extensional :
    (∀ n : Nat, church_decode_char (n : Int) = pychr (n : Int)) ∧
    (∀ n : Nat, (n : Int) ≤ 1114111 → church_decode_char (n : Int) = some [n]) ∧
    (∀ o : HelloWorldOrchestrator, o._render_space = some [32]) := by
  have ext : ∀ n : Nat, church_decode_char (n : Int) = pychr (n : Int) := by
    intro n
    unfold church_decode_char
    rw [to_int_church]
  refine ⟨ext, ?_, fun o => rfl⟩
  intro n hn
  rw [ext n, pychr, if_pos ⟨by positivity, hn⟩]
  simp

/-- Witness for C7 at the space code point: `numeral_encode(32)` is the
one-character string " ". -/
theorem church_encode_extensional_witness :
    church_decode_char ((32 : Nat) : Int) = some [32] :=
  church_encode_extensional.2.1 32 (by decide)

/-- C9: `ASCIICharacter(33)` — the orchestrator's `EXCLAIM` constant —
renders via `str`/`glyph` as the single character "!", and
`_render_exclaim` produces exactly that fragment. -/
theorem exclaim_renders :
    HelloWorldOrchestrator.EXCLAIM.glyph = some [33] ∧
    HelloWorldOrchestrator.EXCLAIM = ASCIICharacter.mk 33 ∧
    HelloWorldOrchestrator.init._render_exclaim = some [33] :=
  ⟨rfl, rfl, rfl⟩

/-- C10: for every negative integer `n`, `fibonacci n` returns `n` itself
without raising: the `n < 2` base case catches all negatives, so the
function is total on all integers. -/
theorem fibonacci_negative_returns_input :
    ∀ n : Int, n < 0 → fibonacci n = n := by
  intro n h
  rw [fibonacci, if_pos (by omega : n < 2)]

/-- Witness for C10: `fibonacci (-5) = -5`. -/
theorem fibonacci_negative_returns_input_witness :
    fibonacci (-5) = -5 :=
  fibonacci_negative_returns_input (-5) (by norm_num)
